import Mathlib

/-!
Verification development for the Financial-Dashboard ledger engine.

The data model follows `src/types.ts`; the per-ledger mutation handlers and
the currency projection follow `src/App.tsx`, `src/components/MainApp.tsx`
and `src/unnamed/part_006`.  The installment splitter, the recurring
materializer and the group-deletion operation are not present under `src/`
(only their UI callers and type declarations are), so those operations are
modelled from the specification, as marked on each definition.
-/

set_option maxHeartbeats 1000000

namespace FinDash

/-- Currency record, from `src/types.ts`. -/
structure Currency where
  symbol : String
  code : String
deriving DecidableEq, Repr

/-- Expense status, from the spec's ExpenseEntry (`status ∈ {pending, paid}`);
`src/unnamed/part_004` reads `expense.status === 'paid'`. -/
inductive ExpenseStatus
  | pending
  | paid
deriving DecidableEq, Repr

/-- Income transaction status, from `src/types.ts`. -/
inductive IncomeStatus
  | pending
  | completed
deriving DecidableEq, Repr

/-- Installment group tag `{ groupId, position, total }`, from the spec's
ExpenseEntry (the engine that writes it is absent from `src/`). -/
structure InstallmentGroup where
  groupId : String
  position : Nat
  total : Nat
deriving DecidableEq, Repr

/-- A calendar date (year, month, day); the source stores ISO strings. -/
structure DateYMD where
  y : Nat
  m : Nat
  d : Nat
deriving DecidableEq, Repr

/-- Expense entry, from `src/types.ts`, extended with the `status` and
`installmentGroup` attributes of the spec's ExpenseEntry. -/
structure Expense where
  id : String
  amount : ℚ
  description : String
  category : String
  date : DateYMD
  paymentMethod : String
  status : ExpenseStatus
  installmentGroup : Option InstallmentGroup
deriving DecidableEq, Repr

/-- Income transaction, from `src/types.ts`. -/
structure IncomeTransaction where
  id : String
  name : String
  amount : ℚ
  date : DateYMD
  category : String
  status : IncomeStatus
deriving DecidableEq, Repr

/-- Monthly ledger document, from `src/types.ts` (`MonthlyData`). -/
structure MonthlyData where
  id : String
  year : Nat
  month : Nat
  limit : ℚ
  baseIncome : ℚ
  currency : Currency
  expenses : List Expense
  incomeTransactions : List IncomeTransaction
  incomeGoal : Option ℚ
  categoryBudgets : List (String × ℚ)
deriving DecidableEq, Repr

/-- The `(year, month)` identity of a ledger document. -/
def keyOf (d : MonthlyData) : Nat × Nat := (d.year, d.month)

/-! ## Currency projection, from `src/App.tsx` lines 41-44 /
`src/components/MainApp.tsx` lines 126-129 -/

/-- Lookup of `rates[code]` in a rate table. -/
def lookupRate (rates : List (String × ℚ)) (code : String) : Option ℚ :=
  (rates.find? (fun p => p.1 == code)).map Prod.snd

/-- JavaScript `x || 1`: a missing entry and the falsy value `0` both
fall back to `1`. -/
def orOne : Option ℚ → ℚ
  | none => 1
  | some r => if r = 0 then 1 else r

/-- Function `conversionRate` from `src/App.tsx`:
`if (!rates || !displayCurrency || ratesError) return 1;
 return rates[displayCurrency.code] || 1;`. -/
def conversionRate (rates : Option (List (String × ℚ))) (ratesError : Bool)
    (displayCode : String) : ℚ :=
  match rates with
  | none => 1
  | some tbl => if ratesError then 1 else orOne (lookupRate tbl displayCode)

/-- Amounts handed to the display formatter: each stored amount multiplied by
the conversion factor (e.g. `transaction.amount * conversionRate` in the
views); the stored entries themselves are not touched. -/
def displayAmounts (amounts : List ℚ) (rate : ℚ) : List ℚ :=
  amounts.map (fun a => a * rate)

/-! ## Per-ledger mutation handlers, from `src/unnamed/part_006` -/

/-- Firestore `FieldValue.arrayUnion`: append the element unless an equal
element is already present. -/
def arrayUnion {α : Type} [DecidableEq α] (xs : List α) (x : α) : List α :=
  if x ∈ xs then xs else xs ++ [x]

/-- Handler `handleAddExpense` (`src/unnamed/part_006` lines 180-196): update the
active ledger's `expenses` with `arrayUnion(newExpense)`. -/
def handleAddExpense (d : MonthlyData) (e : Expense) : MonthlyData :=
  { d with expenses := arrayUnion d.expenses e }

/-- Handler `handleDeleteExpense` (`src/unnamed/part_006` lines 198-215): replace
`expenses` with `expenses.filter(e => e.id !== id)`. -/
def handleDeleteExpense (d : MonthlyData) (eid : String) : MonthlyData :=
  { d with expenses := d.expenses.filter (fun e => e.id != eid) }

/-- Handler `handleAddIncomeTransaction` (`src/unnamed/part_006` lines 261-275):
update `incomeTransactions` with `arrayUnion(newTransaction)`. -/
def handleAddIncomeTransaction (d : MonthlyData) (t : IncomeTransaction) :
    MonthlyData :=
  { d with incomeTransactions := arrayUnion d.incomeTransactions t }

/-- Handler `handleDeleteIncomeTransaction` (`src/unnamed/part_006` lines 277-294). -/
def handleDeleteIncomeTransaction (d : MonthlyData) (tid : String) :
    MonthlyData :=
  { d with incomeTransactions := d.incomeTransactions.filter (fun t => t.id != tid) }

/-- Handler `handleUpdateIncomeTransactionStatus` (`src/unnamed/part_006` lines
296-311): `incomeTransactions.map(t => t.id === id ? { ...t, status } : t)`. -/
def handleUpdateIncomeTransactionStatus (d : MonthlyData) (tid : String)
    (status : IncomeStatus) : MonthlyData :=
  { d with incomeTransactions :=
      d.incomeTransactions.map (fun t => if t.id = tid then { t with status := status } else t) }

/-- Handler `handleUpdateCategoryBudgets` (`src/unnamed/part_006` lines 313-330):
`update({ categoryBudgets: budgets })`. -/
def handleUpdateCategoryBudgets (d : MonthlyData)
    (budgets : List (String × ℚ)) : MonthlyData :=
  { d with categoryBudgets := budgets }

/-- Handler `handleUpdateIncomeGoal` (`src/unnamed/part_006` lines 347-364):
`update({ incomeGoal: goal })`. -/
def handleUpdateIncomeGoal (d : MonthlyData) (goal : ℚ) : MonthlyData :=
  { d with incomeGoal := some goal }

/-! ## Calendar arithmetic -/

/-- The linear month count `12*y + m` of a date's calendar month. -/
def monthIdx (dt : DateYMD) : Nat := 12 * dt.y + dt.m

/-- Date order: by calendar month, then by day (agrees with the source's ISO
instant comparison on calendar dates). -/
def dateLe (a b : DateYMD) : Prop :=
  monthIdx a < monthIdx b ∨ (monthIdx a = monthIdx b ∧ a.d ≤ b.d)

/-- Strict date order. -/
def dateLt (a b : DateYMD) : Prop :=
  monthIdx a < monthIdx b ∨ (monthIdx a = monthIdx b ∧ a.d < b.d)

instance (a b : DateYMD) : Decidable (dateLe a b) := by
  unfold dateLe; exact inferInstance

instance (a b : DateYMD) : Decidable (dateLt a b) := by
  unfold dateLt; exact inferInstance

/-- Gregorian leap year test. -/
def isLeap (y : Nat) : Bool :=
  (y % 4 == 0 && y % 100 != 0) || y % 400 == 0

/-- Number of days in a calendar month. -/
def daysInMonth (y m : Nat) : Nat :=
  if m = 2 then (if isLeap y then 29 else 28)
  else if m = 4 ∨ m = 6 ∨ m = 9 ∨ m = 11 then 30
  else 31

/-- The calendar month following `(y, m)`. -/
def nextMonthOf (y m : Nat) : Nat × Nat :=
  if m = 12 then (y + 1, 1) else (y, m + 1)

/-- The calendar month `k` months after `(y, m)` (months are 1-based). -/
def monthAdd (y m k : Nat) : Nat × Nat :=
  let idx := 12 * y + (m - 1) + k
  (idx / 12, idx % 12 + 1)

/-! ## Recurring Materializer.

The engine itself is not under `src/`: `src/components/RecurringView.tsx`
only collects the rules (importing a `RecurringTransaction` type whose
declaration is also missing) and displays `nextExecutionDate`.  The
definitions below are modelled from spec §4.2. -/

/-- Rule type, modelled from the spec: `type ∈ {expense, income}`. -/
inductive RuleType
  | expense
  | income
deriving DecidableEq, Repr

/-- Modelled from the spec: the missing `RecurringTransaction` record —
id, description, amount, category, type, frequency (only "monthly"),
`startDate`, and the mutable cursor `nextExecutionDate`. -/
structure RecurringRule where
  id : String
  description : String
  amount : ℚ
  category : String
  rtype : RuleType
  frequency : String
  startDate : DateYMD
  nextExecutionDate : DateYMD
deriving DecidableEq, Repr

/-- A ledger entry materialized from a recurring rule (expense or income,
per the rule's type), dated at the cursor, pending, with a
machine-generated description suffix (spec §4.2 step 3). -/
structure GenEntry where
  description : String
  amount : ℚ
  category : String
  date : DateYMD
  gtype : RuleType
deriving DecidableEq, Repr

/-- Modelled from the spec: the entry appended for one period of a rule. -/
def genEntry (r : RecurringRule) (c : DateYMD) : GenEntry :=
  { description := r.description ++ " (recurring)"
    amount := r.amount
    category := r.category
    date := c
    gtype := r.rtype }

/-- Modelled from the spec: advancing the cursor by exactly one calendar
month, clamping the rule's (month-end) start day to the last valid day of
shorter months (spec §4.2 step 4: "31st → last day of shorter month"). -/
def advanceCursor (anchorDay : Nat) (c : DateYMD) : DateYMD :=
  let p := nextMonthOf c.y c.m
  ⟨p.1, p.2, min anchorDay (daysInMonth p.1 p.2)⟩

/-- Modelled from the spec: the §4.2 per-rule loop "While `cursor ≤ today`:
append one new entry dated `cursor`; advance `cursor` by one month".  The
`fuel` argument is only a termination bound; `tickRule` supplies one large
enough that the loop always stops because `cursor > today`. -/
def catchUp (r : RecurringRule) : Nat → DateYMD → DateYMD → List GenEntry × DateYMD
  | 0, c, _ => ([], c)
  | fuel + 1, c, today =>
    if dateLe c today then
      (genEntry r c :: (catchUp r fuel (advanceCursor r.startDate.d c) today).1,
       (catchUp r fuel (advanceCursor r.startDate.d c) today).2)
    else ([], c)

/-- Fuel sufficient for the catch-up loop of one rule. -/
def tickFuel (c t : DateYMD) : Nat := monthIdx t + 1 - monthIdx c

/-- Modelled from the spec: materializing one rule up to `today`; returns the
generated entries (chronological) and the final cursor. -/
def tickRule (r : RecurringRule) (today : DateYMD) : List GenEntry × DateYMD :=
  catchUp r (tickFuel r.nextExecutionDate today) r.nextExecutionDate today

/-- Modelled from the spec: one `tick` over the whole rule list — every rule
is caught up independently and its cursor updated to the final cursor. -/
def tickAll (rules : List RecurringRule) (today : DateYMD) :
    List GenEntry × List RecurringRule :=
  ((rules.map (fun r => (tickRule r today).1)).flatten,
   rules.map (fun r => { r with nextExecutionDate := (tickRule r today).2 }))

/-! ## Installment Splitter.

Not under `src/`: `handleAddExpense` in `src/unnamed/part_006` (lines
180-196) and `src/components/MainApp.tsx` (lines 205-216) appends a single
expense only, even though `src/components/AddExpenseForm.tsx` hands it
`isInstallment`/`installments`.  Modelled from spec §4.1. -/

/-- The original purchase being split, modelled from the spec's
`split(original, totalPeriods, anchorDate)` contract. -/
structure SplitInput where
  amount : ℚ
  description : String
  category : String
  paymentMethod : String
deriving DecidableEq, Repr

/-- The group identifier carried by an expense, if any. -/
def groupIdOf (e : Expense) : Option String :=
  e.installmentGroup.map (·.groupId)

/-- The expense entries of a ledger that belong to a given group. -/
def groupEntries (d : MonthlyData) (gid : String) : List Expense :=
  d.expenses.filter (fun e => decide (groupIdOf e = some gid))

/-- Modelled from the spec: the per-period entry `i` (0-based) of a split —
amount `A / N`, target month `anchor + i` with the anchor day clamped,
1-based position `i + 1`, entry 0 `paid` and the rest `pending` (§4.1). -/
def mkInstallmentEntry (inp : SplitInput) (gid : String) (n : Nat)
    (anchor : DateYMD) (i : Nat) : Expense :=
  let ym := monthAdd anchor.y anchor.m i
  { id := gid ++ "-" ++ toString (i + 1)
    amount := inp.amount / (n : ℚ)
    description := inp.description
    category := inp.category
    date := ⟨ym.1, ym.2, min anchor.d (daysInMonth ym.1 ym.2)⟩
    paymentMethod := inp.paymentMethod
    status := if i = 0 then .paid else .pending
    installmentGroup := some ⟨gid, i + 1, n⟩ }

/-- Modelled from the spec: the N per-period entries of one split. -/
def splitEntries (inp : SplitInput) (gid : String) (n : Nat)
    (anchor : DateYMD) : List Expense :=
  (List.range n).map (mkInstallmentEntry inp gid n anchor)

/-- Modelled from the spec: a ledger created from the currently active
ledger's limit/budgets/currency template, seeded with one entry (§4.1). -/
def templateLedger (cur : MonthlyData) (ym : Nat × Nat) (e : Expense) :
    MonthlyData :=
  { id := toString ym.1 ++ "-" ++ toString ym.2
    year := ym.1
    month := ym.2
    limit := cur.limit
    baseIncome := cur.baseIncome
    currency := cur.currency
    expenses := [e]
    incomeTransactions := []
    incomeGoal := none
    categoryBudgets := cur.categoryBudgets }

/-- Modelled from the spec: the batch write hitting one existing ledger —
if the ledger's month is one of the split's target months, the matching
per-period entry is appended to its expense list. -/
def splitUpdate (inp : SplitInput) (gid : String) (n : Nat) (anchor : DateYMD)
    (d : MonthlyData) : MonthlyData :=
  match (List.range n).find? (fun i => decide (monthAdd anchor.y anchor.m i = keyOf d)) with
  | some i => { d with expenses := d.expenses ++ [mkInstallmentEntry inp gid n anchor i] }
  | none => d

/-- Modelled from the spec: the ledgers created by one split for the target
months that have no ledger yet, each cloned from the current ledger's
template and seeded with its one per-period entry. -/
def splitCreates (s : List MonthlyData) (cur : MonthlyData) (inp : SplitInput)
    (gid : String) (n : Nat) (anchor : DateYMD) : List MonthlyData :=
  ((List.range n).filter
      (fun i => !(s.any (fun d => decide (monthAdd anchor.y anchor.m i = keyOf d))))).map
    (fun i => templateLedger cur (monthAdd anchor.y anchor.m i)
      (mkInstallmentEntry inp gid n anchor i))

/-- Modelled from the spec: applying the single atomic batch of one split —
for each period `i`, append entry `i` to the ledger at month `anchor + i`,
or create that ledger from the template if missing. -/
def applySplit (s : List MonthlyData) (cur : MonthlyData) (inp : SplitInput)
    (gid : String) (n : Nat) (anchor : DateYMD) : List MonthlyData :=
  s.map (splitUpdate inp gid n anchor) ++ splitCreates s cur inp gid n anchor

/-- Error taxonomy of spec §7. -/
inductive LedgerError
  | LedgerNotFound
  | BatchWriteFailed
  | InvalidPeriodCount
  | StaleRateTable
deriving DecidableEq, Repr

/-- Whether an error is reported to the caller as retryable (spec §7:
`BatchWriteFailed` is caught at the operation's boundary and reported as a
retryable failure). -/
def retryable : LedgerError → Bool
  | .BatchWriteFailed => true
  | _ => false

/-- Modelled from the spec: running one split whose batch commit either
succeeds as a whole or is rejected as a whole.  Returns the resulting store
and the reported error, if any: on batch failure the store is unchanged. -/
def splitRun (batchOk : Bool) (s : List MonthlyData) (cur : MonthlyData)
    (inp : SplitInput) (gid : String) (n : Nat) (anchor : DateYMD) :
    List MonthlyData × Option LedgerError :=
  if n < 2 then (s, some .InvalidPeriodCount)
  else if batchOk then (applySplit s cur inp gid n anchor, none)
  else (s, some .BatchWriteFailed)

/-! ## Group deletion, modelled from spec §4.1's deletion contract. -/

/-- Modelled from the spec: `deleteGroup(groupId)` scans every ledger
document and removes any entry whose `installmentGroup.groupId` matches. -/
def deleteGroup (s : List MonthlyData) (gid : String) : List MonthlyData :=
  s.map (fun d =>
    { d with expenses := d.expenses.filter (fun e => !(decide (groupIdOf e = some gid))) })

/-- Modelled from the spec: deleting one chosen entry — if it carries an
installment group, the whole group is deleted across every ledger;
otherwise only the entry itself is removed from the active ledger. -/
def deleteEntry (s : List MonthlyData) (activeKey : Nat × Nat)
    (chosen : Expense) : List MonthlyData :=
  match chosen.installmentGroup with
  | some ig => deleteGroup s ig.groupId
  | none =>
    s.map (fun d =>
      if keyOf d = activeKey then
        { d with expenses := d.expenses.filter (fun e => e.id != chosen.id) }
      else d)

/-! ## Claim-level specifications -/

/-- What claim C1 asserts of one split applied to a store: every target
month has a ledger; the target ledger of period `i` holds exactly the one
group entry of position `i + 1`; no other ledger holds a group entry;
ledger keys stay unique; created ledgers follow the current template; the
positions of the generated entries are `1..n`; and the per-period amounts
sum to the original amount exactly. -/
def SplitSpec (s : List MonthlyData) (cur : MonthlyData) (inp : SplitInput)
    (gid : String) (n : Nat) (anchor : DateYMD) : Prop :=
  (∀ i < n, ∃ d ∈ applySplit s cur inp gid n anchor,
      keyOf d = monthAdd anchor.y anchor.m i) ∧
  (∀ d ∈ applySplit s cur inp gid n anchor, ∀ i < n,
      keyOf d = monthAdd anchor.y anchor.m i →
      groupEntries d gid = [mkInstallmentEntry inp gid n anchor i]) ∧
  (∀ d ∈ applySplit s cur inp gid n anchor,
      (∀ i < n, keyOf d ≠ monthAdd anchor.y anchor.m i) →
      groupEntries d gid = []) ∧
  ((applySplit s cur inp gid n anchor).map keyOf).Nodup ∧
  (∀ i < n, (∀ d ∈ s, keyOf d ≠ monthAdd anchor.y anchor.m i) →
      ∃ d ∈ applySplit s cur inp gid n anchor,
        keyOf d = monthAdd anchor.y anchor.m i ∧ d.limit = cur.limit ∧
        d.currency = cur.currency ∧ d.categoryBudgets = cur.categoryBudgets) ∧
  ((splitEntries inp gid n anchor).map
      (fun e => (e.installmentGroup.map (·.position)).getD 0)
    = (List.range n).map (· + 1)) ∧
  ((splitEntries inp gid n anchor).map (·.amount)).sum = inp.amount

/-- What claim C3 asserts of deleting one grouped entry: the store keeps its
shape, no entry of the chosen entry's group survives in any ledger, and
every ledger keeps exactly its entries outside that group (and all its
non-expense fields). -/
def DeleteGroupSpec (s : List MonthlyData) (activeKey : Nat × Nat)
    (chosen : Expense) (gid : String) : Prop :=
  (deleteEntry s activeKey chosen).length = s.length ∧
  (∀ d' ∈ deleteEntry s activeKey chosen, ∀ e ∈ d'.expenses,
      groupIdOf e ≠ some gid) ∧
  (∀ (i : Nat) (d0 d1 : MonthlyData), s[i]? = some d0 →
      (deleteEntry s activeKey chosen)[i]? = some d1 →
      d1.year = d0.year ∧ d1.month = d0.month ∧ d1.currency = d0.currency ∧
      d1.incomeTransactions = d0.incomeTransactions ∧
      (∀ e ∈ d0.expenses, groupIdOf e ≠ some gid → e ∈ d1.expenses) ∧
      (∀ e ∈ d1.expenses, e ∈ d0.expenses))

/-! ## Concrete example data, used by the witness theorems -/

/-- A concrete currency. -/
def exampleCurrency : Currency := { symbol := "$", code := "USD" }

/-- A concrete January 2024 ledger. -/
def exampleLedgerJan : MonthlyData :=
  { id := "2024-01", year := 2024, month := 1, limit := 1000, baseIncome := 0
    currency := exampleCurrency, expenses := [], incomeTransactions := []
    incomeGoal := none, categoryBudgets := [("food", 200)] }

/-- A concrete pending income transaction. -/
def exampleTxn1 : IncomeTransaction :=
  { id := "t1", name := "Lesson", amount := 50, date := ⟨2024, 1, 10⟩
    category := "private_lesson", status := .pending }

/-- A second concrete income transaction. -/
def exampleTxn2 : IncomeTransaction :=
  { id := "t2", name := "Refund", amount := 20, date := ⟨2024, 1, 12⟩
    category := "refunds", status := .pending }

/-- A concrete ledger holding two income transactions. -/
def exampleLedger : MonthlyData :=
  { exampleLedgerJan with incomeTransactions := [exampleTxn1, exampleTxn2] }

/-- A concrete installment-group tag. -/
def exampleIG : InstallmentGroup := { groupId := "g1", position := 1, total := 2 }

/-- A concrete grouped expense (period 1 of group `g1`). -/
def exampleGroupedExpense : Expense :=
  { id := "g1-1", amount := 150, description := "TV", category := "shopping"
    date := ⟨2024, 1, 15⟩, paymentMethod := "credit-card", status := .paid
    installmentGroup := some exampleIG }

/-- A concrete grouped expense (period 2 of group `g1`). -/
def exampleGroupedExpense2 : Expense :=
  { id := "g1-2", amount := 150, description := "TV", category := "shopping"
    date := ⟨2024, 2, 15⟩, paymentMethod := "credit-card", status := .pending
    installmentGroup := some ⟨"g1", 2, 2⟩ }

/-- A concrete ungrouped expense. -/
def examplePlainExpense : Expense :=
  { id := "p1", amount := 30, description := "Coffee", category := "food"
    date := ⟨2024, 1, 16⟩, paymentMethod := "cash", status := .paid
    installmentGroup := none }

/-- A concrete two-ledger store where group `g1` spans both months. -/
def exampleStore2 : List MonthlyData :=
  [{ exampleLedgerJan with expenses := [exampleGroupedExpense, examplePlainExpense] },
   { exampleLedgerJan with
      id := "2024-02"
      month := 2
      expenses := [exampleGroupedExpense2] }]

/-- A concrete recurring income rule starting 2024-01-01. -/
def exampleIncomeRule : RecurringRule :=
  { id := "r1", description := "Salary", amount := 1000, category := "salary"
    rtype := .income, frequency := "monthly"
    startDate := ⟨2024, 1, 1⟩, nextExecutionDate := ⟨2024, 1, 1⟩ }

/-- A concrete recurring rule starting on a month-end date, 2024-01-31. -/
def exampleMonthEndRule : RecurringRule :=
  { id := "r2", description := "Rent", amount := 700, category := "bills"
    rtype := .expense, frequency := "monthly"
    startDate := ⟨2024, 1, 31⟩, nextExecutionDate := ⟨2024, 1, 31⟩ }

/-- A concrete split input (the §8 scenario: 300 over 3 periods). -/
def exampleSplitInput : SplitInput :=
  { amount := 300, description := "TV", category := "shopping"
    paymentMethod := "credit-card" }

/-! ## Calendar and materializer lemmas -/

/-- Advancing the cursor moves to the immediately following calendar month. -/
theorem monthIdx_advanceCursor (a : Nat) (c : DateYMD) :
    monthIdx (advanceCursor a c) = monthIdx c + 1 := by
  by_cases h : c.m = 12 <;>
    simp only [advanceCursor, nextMonthOf, monthIdx, h, if_true, if_false,
      reduceIte] <;> omega

/-- Date order is compatible with the month count. -/
theorem dateLe_monthIdx {a b : DateYMD} (h : dateLe a b) :
    monthIdx a ≤ monthIdx b := by
  unfold dateLe at h; omega

/-- A date in a strictly later month is not on/before the other. -/
theorem not_dateLe_of_lt {a b : DateYMD} (h : monthIdx b < monthIdx a) :
    ¬ dateLe a b := by
  intro hle; exact absurd (dateLe_monthIdx hle) (by omega)

/-- `dateLe` is reflexive. -/
theorem dateLe_refl (a : DateYMD) : dateLe a a := Or.inr ⟨rfl, le_refl _⟩

/-- The advanced cursor is strictly later. -/
theorem dateLt_advanceCursor (a : Nat) (c : DateYMD) :
    dateLt c (advanceCursor a c) := by
  left; rw [monthIdx_advanceCursor]; omega

/-- Strict date order composes with the reflexive order. -/
theorem dateLt_of_lt_of_le {a b c : DateYMD} (h1 : dateLt a b)
    (h2 : dateLe b c) : dateLt a c := by
  unfold dateLt dateLe at *; omega

/-- If the fuel bounds the months between cursor and today, the catch-up
loop only stops once the cursor has moved strictly past today. -/
theorem catchUp_cursor_gt (r : RecurringRule) :
    ∀ (fuel : Nat) (c t : DateYMD), monthIdx t < monthIdx c + fuel →
      ¬ dateLe (catchUp r fuel c t).2 t := by
  intro fuel
  induction fuel with
  | zero =>
    intro c t h
    show ¬ dateLe c t
    exact not_dateLe_of_lt (by omega)
  | succ k ih =>
    intro c t h
    by_cases hle : dateLe c t
    · simp only [catchUp, if_pos hle]
      exact ih (advanceCursor r.startDate.d c) t (by rw [monthIdx_advanceCursor]; omega)
    · simp only [catchUp, if_neg hle]
      exact hle

/-- After a tick, a rule's cursor is strictly past today. -/
theorem tickRule_cursor_gt (r : RecurringRule) (t : DateYMD) :
    ¬ dateLe (tickRule r t).2 t :=
  catchUp_cursor_gt r _ _ _ (by unfold tickFuel; omega)

/-- A cursor already past today generates nothing and stays put. -/
theorem catchUp_not_le (r : RecurringRule) (fuel : Nat) {c t : DateYMD}
    (h : ¬ dateLe c t) : catchUp r fuel c t = ([], c) := by
  cases fuel with
  | zero => rfl
  | succ k => simp only [catchUp, if_neg h]

/-- Every entry generated by the catch-up loop is dated on/after the cursor
the loop started from. -/
theorem catchUp_dates_ge (r : RecurringRule) :
    ∀ (fuel : Nat) (c t : DateYMD) (e : GenEntry),
      e ∈ (catchUp r fuel c t).1 → dateLe c e.date := by
  intro fuel
  induction fuel with
  | zero => intro c t e he; simp [catchUp] at he
  | succ k ih =>
    intro c t e he
    by_cases hle : dateLe c t
    · simp only [catchUp, if_pos hle, List.mem_cons] at he
      rcases he with rfl | he
      · exact dateLe_refl _
      · have h1 := ih (advanceCursor r.startDate.d c) t e he
        have h2 := dateLt_advanceCursor r.startDate.d c
        unfold dateLt dateLe at *; omega
    · simp [catchUp_not_le r _ hle] at he

/-- Within one rule, one catch-up generates dates in strictly increasing
chronological order. -/
theorem catchUp_dates_chain (r : RecurringRule) :
    ∀ (fuel : Nat) (c t : DateYMD),
      List.Chain' dateLt ((catchUp r fuel c t).1.map (·.date)) := by
  intro fuel
  induction fuel with
  | zero => intro c t; simp [catchUp]
  | succ k ih =>
    intro c t
    by_cases hle : dateLe c t
    · simp only [catchUp, if_pos hle, List.map_cons]
      refine List.chain'_cons'.mpr ⟨?_, ih _ t⟩
      intro b hb
      have hmem : b ∈ ((catchUp r k (advanceCursor r.startDate.d c) t).1.map (·.date)) :=
        List.mem_of_mem_head? hb
      obtain ⟨e, he, rfl⟩ := List.mem_map.mp hmem
      exact dateLt_of_lt_of_le (dateLt_advanceCursor r.startDate.d c)
        (catchUp_dates_ge r k _ t e he)
    · simp [catchUp_not_le r _ hle]

/-- A rule whose cursor is the final cursor of a previous tick with the same
today generates nothing and keeps its cursor. -/
theorem tickRule_again (r : RecurringRule) (t : DateYMD) :
    tickRule { r with nextExecutionDate := (tickRule r t).2 } t
      = ([], (tickRule r t).2) :=
  catchUp_not_le _ _ (tickRule_cursor_gt r t)

/-! ## Splitter lemmas -/

/-- Adding months to a fixed month is injective. -/
theorem monthAdd_inj (y m : Nat) {i j : Nat}
    (h : monthAdd y m i = monthAdd y m j) : i = j := by
  unfold monthAdd at h
  have h1 : (12 * y + (m - 1) + i) / 12 = (12 * y + (m - 1) + j) / 12 :=
    congrArg Prod.fst h
  have h2 : (12 * y + (m - 1) + i) % 12 + 1 = (12 * y + (m - 1) + j) % 12 + 1 :=
    congrArg Prod.snd h
  omega

/-- The batch write on an existing ledger never changes its key. -/
theorem keyOf_splitUpdate (inp : SplitInput) (gid : String) (n : Nat)
    (anchor : DateYMD) (d : MonthlyData) :
    keyOf (splitUpdate inp gid n anchor d) = keyOf d := by
  unfold splitUpdate
  split <;> rfl

/-- The batch write on an existing ledger either appends the per-period
entry of its (unique) target index, or leaves a non-target ledger alone. -/
theorem splitUpdate_cases (inp : SplitInput) (gid : String) (n : Nat)
    (anchor : DateYMD) (d : MonthlyData) :
    (∃ i, i < n ∧ monthAdd anchor.y anchor.m i = keyOf d ∧
        splitUpdate inp gid n anchor d
          = { d with expenses := d.expenses ++ [mkInstallmentEntry inp gid n anchor i] }) ∨
    ((∀ i < n, monthAdd anchor.y anchor.m i ≠ keyOf d) ∧
        splitUpdate inp gid n anchor d = d) := by
  rcases hfind : (List.range n).find?
      (fun i => decide (monthAdd anchor.y anchor.m i = keyOf d)) with _ | i
  · right
    constructor
    · intro i hi hkey
      have h2 := List.find?_eq_none.mp hfind i (List.mem_range.mpr hi)
      simp only [decide_eq_true_eq] at h2
      exact h2 hkey
    · unfold splitUpdate; rw [hfind]
  · left
    refine ⟨i, List.mem_range.mp (List.mem_of_find?_eq_some hfind), ?_, ?_⟩
    · simpa using List.find?_some hfind
    · unfold splitUpdate; rw [hfind]

/-- Each generated per-period entry belongs to the split's group. -/
theorem groupIdOf_mkInstallmentEntry (inp : SplitInput) (gid : String)
    (n : Nat) (anchor : DateYMD) (i : Nat) :
    groupIdOf (mkInstallmentEntry inp gid n anchor i) = some gid := rfl

/-- Appending a per-period entry appends it to the ledger's group view. -/
theorem groupEntries_append_mk (d : MonthlyData) (inp : SplitInput)
    (gid : String) (n : Nat) (anchor : DateYMD) (i : Nat) :
    groupEntries { d with expenses := d.expenses ++ [mkInstallmentEntry inp gid n anchor i] } gid
      = groupEntries d gid ++ [mkInstallmentEntry inp gid n anchor i] := by
  simp [groupEntries, List.filter_append, List.filter_cons,
    groupIdOf_mkInstallmentEntry]

/-- A template ledger seeded with a per-period entry holds exactly that
entry of the group. -/
theorem groupEntries_template (cur : MonthlyData) (ym : Nat × Nat)
    (inp : SplitInput) (gid : String) (n : Nat) (anchor : DateYMD) (i : Nat) :
    groupEntries (templateLedger cur ym (mkInstallmentEntry inp gid n anchor i)) gid
      = [mkInstallmentEntry inp gid n anchor i] := by
  simp [groupEntries, templateLedger, List.filter_cons,
    groupIdOf_mkInstallmentEntry]

/-- A template ledger's key is the month it was created for. -/
theorem keyOf_templateLedger (cur : MonthlyData) (ym : Nat × Nat)
    (e : Expense) : keyOf (templateLedger cur ym e) = ym := rfl

/-- Characterization of the ledgers created by one split. -/
theorem mem_splitCreates {s : List MonthlyData} {cur : MonthlyData}
    {inp : SplitInput} {gid : String} {n : Nat} {anchor : DateYMD}
    {d : MonthlyData} (hd : d ∈ splitCreates s cur inp gid n anchor) :
    ∃ i, i < n ∧ (∀ d' ∈ s, keyOf d' ≠ monthAdd anchor.y anchor.m i) ∧
      d = templateLedger cur (monthAdd anchor.y anchor.m i)
            (mkInstallmentEntry inp gid n anchor i) := by
  unfold splitCreates at hd
  obtain ⟨i, hi, rfl⟩ := List.mem_map.mp hd
  have h1 := List.mem_filter.mp hi
  refine ⟨i, List.mem_range.mp h1.1, ?_, rfl⟩
  intro d' hd' hkey
  have h2 := h1.2
  simp only [Bool.not_eq_true', List.any_eq_false, decide_eq_true_eq] at h2
  exact h2 d' hd' hkey.symm

/-- A target month with no existing ledger gets its template ledger. -/
theorem template_mem_splitCreates {s : List MonthlyData} {cur : MonthlyData}
    {inp : SplitInput} {gid : String} {n : Nat} {anchor : DateYMD} {i : Nat}
    (hi : i < n) (habs : ∀ d ∈ s, keyOf d ≠ monthAdd anchor.y anchor.m i) :
    templateLedger cur (monthAdd anchor.y anchor.m i)
        (mkInstallmentEntry inp gid n anchor i)
      ∈ splitCreates s cur inp gid n anchor := by
  unfold splitCreates
  refine List.mem_map.mpr ⟨i, ?_, rfl⟩
  refine List.mem_filter.mpr ⟨List.mem_range.mpr hi, ?_⟩
  simp only [Bool.not_eq_true', List.any_eq_false, decide_eq_true_eq]
  intro d hd hkey
  exact habs d hd hkey.symm

/-- The generated per-period amounts are `n` copies of `A / n`. -/
theorem splitEntries_amounts (inp : SplitInput) (gid : String) (n : Nat)
    (anchor : DateYMD) :
    (splitEntries inp gid n anchor).map (·.amount)
      = List.replicate n (inp.amount / (n : ℚ)) := by
  unfold splitEntries
  rw [List.map_map]
  have h : ((fun e : Expense => e.amount) ∘ mkInstallmentEntry inp gid n anchor)
      = fun _ => inp.amount / (n : ℚ) := rfl
  rw [h, List.map_const', List.length_range]

/-- The generated per-period amounts sum exactly to the original amount. -/
theorem splitEntries_sum (inp : SplitInput) (gid : String) {n : Nat}
    (hn : n ≠ 0) (anchor : DateYMD) :
    ((splitEntries inp gid n anchor).map (·.amount)).sum = inp.amount := by
  rw [splitEntries_amounts, List.sum_replicate, nsmul_eq_mul]
  exact mul_div_cancel₀ _ (Nat.cast_ne_zero.mpr hn)

/-- The generated positions are `1..n` in order. -/
theorem splitEntries_positions (inp : SplitInput) (gid : String) (n : Nat)
    (anchor : DateYMD) :
    (splitEntries inp gid n anchor).map
        (fun e => (e.installmentGroup.map (·.position)).getD 0)
      = (List.range n).map (· + 1) := by
  unfold splitEntries
  rw [List.map_map]
  rfl

/-- The first generated entry is `paid`, all later ones `pending`. -/
theorem splitEntries_statuses (inp : SplitInput) (gid : String) {n : Nat}
    (hn : 1 ≤ n) (anchor : DateYMD) :
    (splitEntries inp gid n anchor).map (·.status)
      = ExpenseStatus.paid :: List.replicate (n - 1) ExpenseStatus.pending := by
  obtain ⟨k, rfl⟩ : ∃ k, n = k + 1 := ⟨n - 1, by omega⟩
  unfold splitEntries
  rw [List.map_map, List.range_succ_eq_map, List.map_cons, List.map_map]
  have h0 : ((fun e : Expense => e.status) ∘ mkInstallmentEntry inp gid (k + 1) anchor) 0
      = ExpenseStatus.paid := rfl
  have h1 : (((fun e : Expense => e.status) ∘ mkInstallmentEntry inp gid (k + 1) anchor) ∘ (· + 1))
      = fun _ => ExpenseStatus.pending := by
    funext i
    simp [mkInstallmentEntry, Function.comp]
  rw [h0, h1, List.map_const', List.length_range]
  simp

/-! ## Claim theorems -/

/-- C1: an installment split of amount `A` over `N ≥ 2` periods anchored at
month `m` puts exactly one group entry into each of the `N` consecutive
monthly ledgers starting at `m` (creating missing ledgers from the current
ledger's limit/budgets/currency template), no group entry anywhere else,
the entries carry one shared `groupId` with positions `1..N` each exactly
once, and the per-period amounts sum to `A` (hence within one minor-unit
rounding unit). -/
theorem installment_split_correct (s : List MonthlyData) (cur : MonthlyData)
    (inp : SplitInput) (gid : String) (n : Nat) (anchor : DateYMD)
    (hn : 2 ≤ n) (hfresh : ∀ d ∈ s, groupEntries d gid = [])
    (hkeys : (s.map keyOf).Nodup) :
    SplitSpec s cur inp gid n anchor := by
  refine ⟨?_, ?_, ?_, ?_, ?_, splitEntries_positions inp gid n anchor,
    splitEntries_sum inp gid (by omega) anchor⟩
  · -- every target month has a ledger after the split
    intro i hi
    by_cases hp : ∃ d ∈ s, keyOf d = monthAdd anchor.y anchor.m i
    · obtain ⟨d, hd, hk⟩ := hp
      refine ⟨splitUpdate inp gid n anchor d, ?_, ?_⟩
      · exact List.mem_append_left _ (List.mem_map_of_mem _ hd)
      · rw [keyOf_splitUpdate]; exact hk
    · push_neg at hp
      exact ⟨templateLedger cur (monthAdd anchor.y anchor.m i)
          (mkInstallmentEntry inp gid n anchor i),
        List.mem_append_right _ (template_mem_splitCreates hi hp),
        keyOf_templateLedger cur _ _⟩
  · -- the target ledger of period i holds exactly entry i
    intro d hd i hi hkey
    rcases List.mem_append.mp hd with hmap | hcr
    · obtain ⟨d0, hd0, rfl⟩ := List.mem_map.mp hmap
      rcases splitUpdate_cases inp gid n anchor d0 with ⟨j, hj, hjk, heq⟩ | ⟨hno, heq⟩
      · rw [heq] at hkey ⊢
        have hkey0 : keyOf d0 = monthAdd anchor.y anchor.m i := hkey
        have hij : j = i := monthAdd_inj _ _ (by rw [hjk, hkey0])
        subst hij
        rw [groupEntries_append_mk, hfresh d0 hd0, List.nil_append]
      · rw [heq] at hkey ⊢
        exact absurd hkey.symm (hno i hi)
    · obtain ⟨j, hj, habs, rfl⟩ := mem_splitCreates hcr
      rw [keyOf_templateLedger] at hkey
      have hij : j = i := monthAdd_inj _ _ hkey
      subst hij
      exact groupEntries_template cur _ inp gid n anchor j
  · -- ledgers outside the target months hold no group entry
    intro d hd hnot
    rcases List.mem_append.mp hd with hmap | hcr
    · obtain ⟨d0, hd0, rfl⟩ := List.mem_map.mp hmap
      rcases splitUpdate_cases inp gid n anchor d0 with ⟨j, hj, hjk, heq⟩ | ⟨hno, heq⟩
      · rw [heq] at hnot
        exact absurd hjk.symm (hnot j hj)
      · rw [heq]
        rw [heq] at hnot
        exact hfresh d0 hd0
    · obtain ⟨j, hj, habs, rfl⟩ := mem_splitCreates hcr
      exact absurd (keyOf_templateLedger cur _ _) (hnot j hj)
  · -- ledger keys stay unique
    show ((s.map (splitUpdate inp gid n anchor)
        ++ splitCreates s cur inp gid n anchor).map keyOf).Nodup
    rw [List.map_append, List.map_map]
    have e1 : s.map (keyOf ∘ splitUpdate inp gid n anchor) = s.map keyOf :=
      List.map_congr_left (fun d _ => keyOf_splitUpdate inp gid n anchor d)
    have e2 : (splitCreates s cur inp gid n anchor).map keyOf
        = ((List.range n).filter
            (fun i => !(s.any (fun d => decide (monthAdd anchor.y anchor.m i = keyOf d))))).map
          (monthAdd anchor.y anchor.m) := by
      unfold splitCreates
      rw [List.map_map]
      rfl
    rw [e1, e2, List.nodup_append]
    refine ⟨hkeys, ?_, ?_⟩
    · exact ((List.nodup_range n).filter _).map (fun i j h => monthAdd_inj _ _ h)
    · intro k hk1 hk2
      obtain ⟨d, hd, rfl⟩ := List.mem_map.mp hk1
      obtain ⟨i, hi, hik⟩ := List.mem_map.mp hk2
      have h2 := (List.mem_filter.mp hi).2
      simp only [Bool.not_eq_true', List.any_eq_false, decide_eq_true_eq] at h2
      exact h2 d hd hik
  · -- created ledgers follow the current ledger's template
    intro i hi habs
    refine ⟨templateLedger cur (monthAdd anchor.y anchor.m i)
        (mkInstallmentEntry inp gid n anchor i),
      List.mem_append_right _ (template_mem_splitCreates hi habs),
      keyOf_templateLedger cur _ _, rfl, rfl, rfl⟩

/-- C1 witness: the §8 scenario — a 300-over-3 split anchored 2024-01-15
against a store holding only the January 2024 ledger. -/
theorem installment_split_correct_witness :
    (2 ≤ 3) ∧ SplitSpec [exampleLedgerJan] exampleLedgerJan exampleSplitInput
      "g1" 3 ⟨2024, 1, 15⟩ :=
  ⟨by omega,
   installment_split_correct [exampleLedgerJan] exampleLedgerJan
     exampleSplitInput "g1" 3 ⟨2024, 1, 15⟩ (by omega)
     (by intro d hd; simp only [List.mem_singleton] at hd; subst hd; rfl)
     (by simp)⟩

/-- C2: for every rule list and every today, a second tick with the same
inputs generates zero entries and leaves every rule's `nextExecutionDate`
unchanged — the tick is idempotent. -/
theorem recurring_tick_idempotent (rules : List RecurringRule)
    (today : DateYMD) :
    tickAll (tickAll rules today).2 today = ([], (tickAll rules today).2) := by
  unfold tickAll
  rw [Prod.mk.injEq]
  constructor
  · rw [List.map_map]
    refine List.flatten_eq_nil_iff.mpr ?_
    intro l hl
    obtain ⟨r, hr, rfl⟩ := List.mem_map.mp hl
    exact congrArg Prod.fst (tickRule_again r today)
  · rw [List.map_map]
    refine List.map_congr_left ?_
    intro r _
    show { r with nextExecutionDate :=
        (tickRule { r with nextExecutionDate := (tickRule r today).2 } today).2 }
      = { r with nextExecutionDate := (tickRule r today).2 }
    rw [tickRule_again r today]

/-- C3: deleting any one entry of an installment group removes every entry
sharing its `groupId` from every ledger, keeps every entry of any other
group or of no group, and leaves all non-expense ledger fields intact. -/
theorem delete_group_exact (s : List MonthlyData) (activeKey : Nat × Nat)
    (chosen : Expense) (ig : InstallmentGroup)
    (hg : chosen.installmentGroup = some ig) :
    DeleteGroupSpec s activeKey chosen ig.groupId := by
  have hde : deleteEntry s activeKey chosen = deleteGroup s ig.groupId := by
    unfold deleteEntry
    rw [hg]
  unfold DeleteGroupSpec
  rw [hde]
  refine ⟨List.length_map _ _, ?_, ?_⟩
  · intro d' hd' e he
    obtain ⟨d, hd, rfl⟩ := List.mem_map.mp hd'
    have h2 := (List.mem_filter.mp he).2
    simp only [Bool.not_eq_true', decide_eq_false_iff_not] at h2
    exact h2
  · intro i d0 d1 h0 h1
    unfold deleteGroup at h1
    rw [List.getElem?_map, h0, Option.map_some'] at h1
    have hd1 := (Option.some.inj h1).symm
    subst hd1
    refine ⟨rfl, rfl, rfl, rfl, ?_, ?_⟩
    · intro e he hne
      refine List.mem_filter.mpr ⟨he, ?_⟩
      simp only [Bool.not_eq_true', decide_eq_false_iff_not]
      exact hne
    · intro e he
      exact (List.mem_filter.mp he).1

/-- C3 witness: deleting the first entry of group `g1` from a two-ledger
store where the group spans both months. -/
theorem delete_group_exact_witness :
    exampleGroupedExpense.installmentGroup = some exampleIG ∧
    DeleteGroupSpec exampleStore2 (2024, 1) exampleGroupedExpense
      exampleIG.groupId :=
  ⟨rfl, delete_group_exact exampleStore2 (2024, 1) exampleGroupedExpense
    exampleIG rfl⟩

/-- C4: the split marks period 0 `paid` and all later periods `pending`,
and its writes form one atomic batch: on batch failure the store is
completely unchanged and the caller is handed the retryable
`BatchWriteFailed` error. -/
theorem split_paid_pending_atomic (s : List MonthlyData) (cur : MonthlyData)
    (inp : SplitInput) (gid : String) (n : Nat) (anchor : DateYMD)
    (hn : 2 ≤ n) :
    ((splitEntries inp gid n anchor).map (·.status)
        = ExpenseStatus.paid :: List.replicate (n - 1) ExpenseStatus.pending) ∧
    splitRun false s cur inp gid n anchor = (s, some LedgerError.BatchWriteFailed) ∧
    retryable LedgerError.BatchWriteFailed = true := by
  refine ⟨splitEntries_statuses inp gid (by omega) anchor, ?_, rfl⟩
  unfold splitRun
  rw [if_neg (by omega)]
  rfl

/-- C4 witness: the failing batch of a 300-over-3 split leaves the one-ledger
store untouched. -/
theorem split_paid_pending_atomic_witness :
    (2 ≤ 3) ∧
    (((splitEntries exampleSplitInput "g1" 3 ⟨2024, 1, 15⟩).map (·.status)
        = ExpenseStatus.paid :: List.replicate 2 ExpenseStatus.pending) ∧
     splitRun false [exampleLedgerJan] exampleLedgerJan exampleSplitInput
        "g1" 3 ⟨2024, 1, 15⟩ = ([exampleLedgerJan], some LedgerError.BatchWriteFailed) ∧
     retryable LedgerError.BatchWriteFailed = true) :=
  ⟨by omega,
   split_paid_pending_atomic [exampleLedgerJan] exampleLedgerJan
     exampleSplitInput "g1" 3 ⟨2024, 1, 15⟩ (by omega)⟩

/-- C5: counterexample — a rule with `nextExecutionDate = 2024-01-01` ticked
on `today = 2024-03-15` does not generate exactly two entries with final
cursor 2024-03-01: the `while cursor ≤ today` loop of §4.2 also
materializes the 2024-03-01 period (2024-03-01 ≤ 2024-03-15), producing
three entries and cursor 2024-04-01. -/
theorem tick_scenario_counterexample :
    ¬ ((tickRule exampleIncomeRule ⟨2024, 3, 15⟩).1.length = 2 ∧
       (tickRule exampleIncomeRule ⟨2024, 3, 15⟩).2 = ⟨2024, 3, 1⟩) := by
  decide

/-- C5 (amended): the same scenario generates exactly three income entries,
dated 2024-01-01, 2024-02-01 and 2024-03-01 in that chronological order,
and leaves `nextExecutionDate = 2024-04-01`; in general one tick generates,
per rule, one entry per period on/before today, in strictly chronological
order. -/
theorem tick_per_period_chronological :
    ((tickRule exampleIncomeRule ⟨2024, 3, 15⟩).1.map (·.date)
        = [⟨2024, 1, 1⟩, ⟨2024, 2, 1⟩, ⟨2024, 3, 1⟩] ∧
     (∀ e ∈ (tickRule exampleIncomeRule ⟨2024, 3, 15⟩).1,
        e.gtype = RuleType.income) ∧
     (tickRule exampleIncomeRule ⟨2024, 3, 15⟩).2 = ⟨2024, 4, 1⟩) ∧
    ∀ (r : RecurringRule) (t : DateYMD),
      List.Chain' dateLt ((tickRule r t).1.map (·.date)) :=
  ⟨by decide, fun r t => catchUp_dates_chain r _ _ t⟩

/-- C6: each materialization step advances the cursor by exactly one
calendar month, with the day clamped to a valid day of the new month; a
rule starting 2024-01-31 ticked through 2024-04-15 generates entries dated
2024-01-31, 2024-02-29 and 2024-03-31 — the last valid days of the shorter
February and of March — neither erroring nor skipping a month. -/
theorem cursor_advance_one_month_clamped :
    (∀ (a : Nat) (c : DateYMD),
        monthIdx (advanceCursor a c) = monthIdx c + 1) ∧
    (∀ (a : Nat) (c : DateYMD),
        (advanceCursor a c).d
            ≤ daysInMonth (advanceCursor a c).y (advanceCursor a c).m ∧
        (advanceCursor a c).d ≤ a) ∧
    ((tickRule exampleMonthEndRule ⟨2024, 4, 15⟩).1.map (·.date)
        = [⟨2024, 1, 31⟩, ⟨2024, 2, 29⟩, ⟨2024, 3, 31⟩] ∧
     daysInMonth 2024 2 = 29 ∧ daysInMonth 2024 3 = 31) :=
  ⟨monthIdx_advanceCursor,
   fun a c => ⟨min_le_right _ _, min_le_left _ _⟩,
   by decide⟩

/-- C8: the projection never raises — with no table, an errored table, or a
table lacking the display currency's entry, the factor falls back to 1, and
the degraded display hands back exactly the stored amounts, which are never
mutated. -/
theorem factor_missing_falls_back (tbl : List (String × ℚ)) (err : Bool)
    (x : String) (amounts : List ℚ) (hmiss : lookupRate tbl x = none) :
    conversionRate none err x = 1 ∧
    conversionRate (some tbl) true x = 1 ∧
    conversionRate (some tbl) err x = 1 ∧
    displayAmounts amounts (conversionRate (some tbl) err x) = amounts := by
  have h1 : conversionRate (some tbl) err x = 1 := by
    cases err <;> simp [conversionRate, orOne, hmiss]
  refine ⟨rfl, by simp [conversionRate], h1, ?_⟩
  rw [h1]
  simp [displayAmounts]

/-- C8 witness: a table with only an EUR entry, queried for JPY. -/
theorem factor_missing_falls_back_witness :
    lookupRate [("EUR", 3)] "JPY" = none ∧
    (conversionRate none false "JPY" = 1 ∧
     conversionRate (some [("EUR", 3)]) true "JPY" = 1 ∧
     conversionRate (some [("EUR", 3)]) false "JPY" = 1 ∧
     displayAmounts [5, 7] (conversionRate (some [("EUR", 3)]) false "JPY")
        = [5, 7]) :=
  ⟨rfl, factor_missing_falls_back [("EUR", 3)] false "JPY" [5, 7] rfl⟩

/-- C9: every mutating per-ledger operation — adding or deleting an expense,
adding, deleting or status-updating an income transaction, updating
category budgets, updating the income goal — leaves the ledger's base
currency unchanged. -/
theorem handlers_preserve_currency (d : MonthlyData) (e : Expense)
    (eid : String) (t : IncomeTransaction) (tid : String)
    (st : IncomeStatus) (budgets : List (String × ℚ)) (goal : ℚ) :
    (handleAddExpense d e).currency = d.currency ∧
    (handleDeleteExpense d eid).currency = d.currency ∧
    (handleAddIncomeTransaction d t).currency = d.currency ∧
    (handleDeleteIncomeTransaction d tid).currency = d.currency ∧
    (handleUpdateIncomeTransactionStatus d tid st).currency = d.currency ∧
    (handleUpdateCategoryBudgets d budgets).currency = d.currency ∧
    (handleUpdateIncomeGoal d goal).currency = d.currency :=
  ⟨rfl, rfl, rfl, rfl, rfl, rfl, rfl⟩

/-- C10: marking an income transaction completed touches only the status of
the matching transaction — its other fields, every other transaction, the
expense list and every other ledger field are unchanged, and with no
matching id the ledger is left entirely unchanged. -/
theorem update_status_frame (d : MonthlyData) (tid : String)
    (st : IncomeStatus) :
    ((handleUpdateIncomeTransactionStatus d tid st).expenses = d.expenses ∧
     (handleUpdateIncomeTransactionStatus d tid st).currency = d.currency ∧
     (handleUpdateIncomeTransactionStatus d tid st).limit = d.limit ∧
     (handleUpdateIncomeTransactionStatus d tid st).baseIncome = d.baseIncome ∧
     (handleUpdateIncomeTransactionStatus d tid st).incomeGoal = d.incomeGoal ∧
     (handleUpdateIncomeTransactionStatus d tid st).categoryBudgets = d.categoryBudgets ∧
     (handleUpdateIncomeTransactionStatus d tid st).year = d.year ∧
     (handleUpdateIncomeTransactionStatus d tid st).month = d.month ∧
     (handleUpdateIncomeTransactionStatus d tid st).id = d.id) ∧
    (handleUpdateIncomeTransactionStatus d tid st).incomeTransactions.length
        = d.incomeTransactions.length ∧
    (∀ (i : Nat) (t0 t1 : IncomeTransaction),
      d.incomeTransactions[i]? = some t0 →
      (handleUpdateIncomeTransactionStatus d tid st).incomeTransactions[i]? = some t1 →
      t1.id = t0.id ∧ t1.name = t0.name ∧ t1.amount = t0.amount ∧
      t1.date = t0.date ∧ t1.category = t0.category ∧
      (t0.id = tid → t1.status = st) ∧ (t0.id ≠ tid → t1 = t0)) ∧
    ((∀ t ∈ d.incomeTransactions, t.id ≠ tid) →
      handleUpdateIncomeTransactionStatus d tid st = d) := by
  refine ⟨⟨rfl, rfl, rfl, rfl, rfl, rfl, rfl, rfl, rfl⟩,
    List.length_map _ _, ?_, ?_⟩
  · intro i t0 t1 h0 h1
    unfold handleUpdateIncomeTransactionStatus at h1
    simp only [List.getElem?_map, h0, Option.map_some'] at h1
    have ht1 := (Option.some.inj h1).symm
    subst ht1
    by_cases hid : t0.id = tid
    · rw [if_pos hid]
      exact ⟨rfl, rfl, rfl, rfl, rfl, fun _ => rfl, fun hne => absurd hid hne⟩
    · rw [if_neg hid]
      exact ⟨rfl, rfl, rfl, rfl, rfl, fun h => absurd h hid, fun _ => rfl⟩
  · intro hno
    unfold handleUpdateIncomeTransactionStatus
    have hmap : d.incomeTransactions.map
        (fun t => if t.id = tid then { t with status := st } else t)
        = d.incomeTransactions := by
      conv_rhs => rw [← List.map_id d.incomeTransactions]
      refine List.map_congr_left ?_
      intro t ht
      rw [if_neg (hno t ht)]
      rfl
    rw [hmap]

/-- C10 witness: completing transaction `t1` in a concrete two-transaction
ledger keeps the expense list and the transaction count. -/
theorem update_status_frame_witness :
    (handleUpdateIncomeTransactionStatus exampleLedger "t1"
        IncomeStatus.completed).expenses = exampleLedger.expenses ∧
    (handleUpdateIncomeTransactionStatus exampleLedger "t1"
        IncomeStatus.completed).incomeTransactions.length
      = exampleLedger.incomeTransactions.length :=
  ⟨(update_status_frame exampleLedger "t1" IncomeStatus.completed).1.1,
   (update_status_frame exampleLedger "t1" IncomeStatus.completed).2.1⟩

end FinDash
